import Mathlib

/-!
# Verification of the `sui-package-resolver` cache and store layer

This file gives a shallow embedding of `crates/sui-package-resolver/src/cache.rs`
and `crates/sui-package-resolver/src/store.rs` and proves properties of the
embedded definitions.

Modelling conventions:
* `AccountAddress` / `ObjectID` are modelled as `Nat`.
* `SequenceNumber` (object versions) are modelled as `Nat`.
* Rust `BTreeMap`s are modelled as association lists (`List (κ × β)`) whose
  entry list is the map's ascending iteration order; `lookupKV`, `insertKV`
  and `eraseKV` mirror `get`, `insert` and `remove`.
* `Arc<Package>` handles are modelled by the `Package` value itself: two
  handles to the same `Arc` are equal values in the model.
* External byte-level codecs (`CompiledModule::deserialize_with_defaults`,
  `bcs::from_bytes::<Object>`) are opaque to this crate; serialized forms are
  modelled as an inductive that either carries the decoded value or is
  malformed, and the decoder either succeeds or fails accordingly.
* Database / RocksDB transport errors are not modelled: the indexer query
  oracle returns the latest row or nothing, and durable-table writes succeed.
-/

namespace Sui

/-- Association-list lookup, mirroring `BTreeMap::get`: the first entry with
the given key (entry lists for maps have pairwise-distinct keys). -/
def lookupKV {κ β : Type} [DecidableEq κ] (m : List (κ × β)) (k : κ) : Option β :=
  match m with
  | [] => none
  | (k', v) :: rest => if k' = k then some v else lookupKV rest k

/-- Association-list insert, mirroring `BTreeMap::insert`: overwrite in place
if the key is present, otherwise append. -/
def insertKV {κ β : Type} [DecidableEq κ] (m : List (κ × β)) (k : κ) (v : β) :
    List (κ × β) :=
  match m with
  | [] => [(k, v)]
  | (k', v') :: rest =>
    if k' = k then (k, v) :: rest else (k', v') :: insertKV rest k v

/-- Association-list removal, mirroring `BTreeMap::remove`. -/
def eraseKV {κ β : Type} [DecidableEq κ] (m : List (κ × β)) (k : κ) : List (κ × β) :=
  match m with
  | [] => []
  | (k', v) :: rest =>
    if k' = k then eraseKV rest k else (k', v) :: eraseKV rest k

theorem lookupKV_erase_ne {κ β : Type} [DecidableEq κ] (m : List (κ × β))
    (k k' : κ) (h : k' ≠ k) : lookupKV (eraseKV m k) k' = lookupKV m k' := by
  induction m with
  | nil => rfl
  | cons e rest ih =>
    cases e with
    | mk k₀ v₀ =>
      by_cases hk : k₀ = k
      · subst hk
        have hk' : ¬ k₀ = k' := fun hc => h hc.symm
        simp [eraseKV, lookupKV, hk', ih]
      · by_cases hk' : k₀ = k'
        · subst hk'
          simp [eraseKV, hk, lookupKV, h]
        · simp [eraseKV, hk, lookupKV, hk', ih]

theorem lookupKV_append_of_none {κ β : Type} [DecidableEq κ]
    (m₁ m₂ : List (κ × β)) (k : κ) (h : lookupKV m₁ k = none) :
    lookupKV (m₁ ++ m₂) k = lookupKV m₂ k := by
  induction m₁ with
  | nil => rfl
  | cons e rest ih =>
    cases e with
    | mk k₀ v₀ =>
      by_cases hk : k₀ = k
      · simp [lookupKV, hk] at h
      · simp only [lookupKV, hk, if_neg hk, List.cons_append] at *
        exact ih h

/-! ## Data model: objects, compiled modules, packages -/

/-- The part of a deserialized `CompiledModule` that this crate inspects:
its self-referential address and the names of the structs its bytecode
declares. -/
structure CompiledModule where
  address : Nat
  structs : List String
  deriving DecidableEq, Repr

/-- Serialized module bytes, opaque except for whether
`CompiledModule::deserialize_with_defaults` succeeds on them. -/
inductive ModuleBytes where
  | valid (m : CompiledModule)
  | malformed
  deriving DecidableEq, Repr

/-- Model of `CompiledModule::deserialize_with_defaults` (external crate
`move-binary-format`): decodes valid bytes, fails on malformed bytes. -/
def deserialize_with_defaults : ModuleBytes → Except Unit CompiledModule
  | .valid m => .ok m
  | .malformed => .error ()

/-- One row of a move package's type-origin table: the package that first
defined `struct_name` in `module_name`. -/
structure TypeOrigin where
  module_name : String
  struct_name : String
  package : Nat
  deriving DecidableEq, Repr

/-- The part of `sui_types::move_package::MovePackage` that `make_package`
reads: the type-origin table, the serialized module map (in ascending name
order, its `BTreeMap` iteration order) and the linkage table
(`dependency runtime id ↦ upgraded storage id`). -/
structure MovePackage where
  type_origin_table : List TypeOrigin
  serialized_module_map : List (String × ModuleBytes)
  linkage_table : List (Nat × Nat)
  deriving DecidableEq, Repr

/-- Model of `sui_types::object::Object::data`, as far as this crate distinguishes it:
either package data or some other object content (`try_as_package` fails). -/
inductive ObjectData where
  | package (p : MovePackage)
  | other
  deriving DecidableEq, Repr

/-- A sui object: its id, version and data. -/
structure Object where
  id : Nat
  version : Nat
  data : ObjectData
  deriving DecidableEq, Repr

/-- Model of `ObjectData::try_as_package`. -/
def ObjectData.try_as_package : ObjectData → Option MovePackage
  | .package p => some p
  | .other => none

/-- The `sui-package-resolver` error variants touched by the cache and store
layer (`crate::error::Error`). -/
inductive Error where
  | PackageNotFound (id : Nat)
  | NotAPackage (id : Nat)
  | EmptyPackage (id : Nat)
  | Deserialize
  | NoTypeOrigin (id : Nat) (module_name : String) (struct_name : String)
  | Bcs
  deriving DecidableEq, Repr

/-- A processed module: its bytecode together with the struct-origin map
attached by `Module::read`. -/
structure Module where
  bytecode : CompiledModule
  struct_origins : List (String × Nat)
  deriving DecidableEq, Repr

/-- Modelled from the spec: `Module::read` lives in the resolver crate's root
module, which is not among the sources here. Per the spec it attaches the
module's slice of the type-origin index to the deserialized bytecode, "failing
with `NoTypeOrigin` if any struct defined in the module's bytecode has no
corresponding origin entry" (the error value carries the offending struct
name). -/
def Module.read (bytecode : CompiledModule) (origins : List (String × Nat)) :
    Except String Module :=
  match bytecode.structs.find? (fun s => (lookupKV origins s).isNone) with
  | some s => .error s
  | none => .ok ⟨bytecode, origins⟩

/-- A materialized package (`sui_package_resolver::Package`). -/
structure Package where
  storage_id : Nat
  runtime_id : Nat
  version : Nat
  modules : List (String × Module)
  linkage : List (Nat × Nat)
  deriving DecidableEq, Repr

/-! ## The package materializer: `make_package` (store.rs) -/

/-- The body of the first loop of `make_package`: record one type-origin
table row in the two-level index
`module name ↦ (struct name ↦ defining package)`. -/
def addOriginRow (acc : List (String × List (String × Nat)))
    (row : TypeOrigin) : List (String × List (String × Nat)) :=
  insertKV acc row.module_name
    (insertKV ((lookupKV acc row.module_name).getD []) row.struct_name row.package)

/-- The type-origin index built by the first loop of `make_package`, with
later table rows overwriting earlier ones for the same `(module, struct)`
pair. -/
def buildTypeOrigins (table : List TypeOrigin) :
    List (String × List (String × Nat)) :=
  table.foldl addOriginRow []

/-- The module loop of `make_package`: walk the serialized module map in
order, take this module's origins out of the index, deserialize, overwrite the
running runtime id with the module's self address, and read the module. -/
def processModules (id : Nat) (mm : List (String × ModuleBytes))
    (tos : List (String × List (String × Nat)))
    (runtime_id : Option Nat) (modules : List (String × Module)) :
    Except Error (Option Nat × List (String × Module)) :=
  match mm with
  | [] => .ok (runtime_id, modules)
  | (name, bytes) :: rest =>
    let origins := (lookupKV tos name).getD []
    let tos' := eraseKV tos name
    match deserialize_with_defaults bytes with
    | .error _ => .error .Deserialize
    | .ok bytecode =>
      match Module.read bytecode origins with
      | .error s => .error (.NoTypeOrigin id name s)
      | .ok module =>
        processModules id rest tos' (some bytecode.address)
          (insertKV modules name module)

/-- Model of `make_package` (store.rs): materialize an on-chain object into a
`Package`, or fail. -/
def make_package (id : Nat) (version : Nat) (object : Object) :
    Except Error Package :=
  match object.data.try_as_package with
  | none => .error (.NotAPackage id)
  | some package =>
    match processModules id package.serialized_module_map
        (buildTypeOrigins package.type_origin_table) none [] with
    | .error e => .error e
    | .ok (none, _) => .error (.EmptyPackage id)
    | .ok (some runtime_id, modules) =>
      .ok { storage_id := id
            runtime_id := runtime_id
            version := version
            modules := modules
            linkage := package.linkage_table.map (fun d => (d.1, d.2)) }

/-! ## The package cache (cache.rs) -/

/-- Model of `sui_types::is_system_package`: the fixed set of system package
addresses (`0x1` move-stdlib, `0x2` sui-framework, `0x3` sui-system,
`0xdee9` deepbook). -/
def is_system_package (id : Nat) : Bool :=
  id = 0x1 || id = 0x2 || id = 0x3 || id = 0xdee9

/-- The `PACKAGE_CACHE_SIZE` constant. -/
def PACKAGE_CACHE_SIZE : Nat := 1024

/-- The `lru::LruCache<AccountAddress, Arc<Package>>` inside the cache's
mutex: entries ordered most-recently-used first, bounded by `cap`. -/
structure Lru where
  cap : Nat
  entries : List (Nat × Package)
  deriving DecidableEq, Repr

/-- Model of `LruCache::peek`: look the entry up without changing recency. -/
def Lru.peek (c : Lru) (id : Nat) : Option Package :=
  lookupKV c.entries id

/-- Recency promotion (`LruCache::promote`, and the reordering performed by
`LruCache::get` on a hit): move the entry for `id`, if any, to the
most-recently-used position. -/
def Lru.touch (c : Lru) (id : Nat) : Lru :=
  match lookupKV c.entries id with
  | none => c
  | some p => ⟨c.cap, (id, p) :: eraseKV c.entries id⟩

/-- Model of `LruCache::push`: insert `id ↦ p` at the most-recently-used position,
replacing any entry for `id`; if the cache is full and `id` is absent, the
least-recently-used entry is evicted. -/
def Lru.push (c : Lru) (id : Nat) (p : Package) : Lru :=
  match lookupKV c.entries id with
  | some _ => ⟨c.cap, (id, p) :: eraseKV c.entries id⟩
  | none =>
    ⟨c.cap, (id, p) ::
      (if c.entries.length < c.cap then c.entries else c.entries.dropLast)⟩

/-- A store query issued by `PackageCache::package`. -/
inductive StoreOp where
  | version (id : Nat)
  | fetch (id : Nat)
  deriving DecidableEq, Repr

/-- The `PackageStore` oracle the cache talks to: responses of
`version(id)` and `fetch(id)`. -/
structure Store where
  version : Nat → Except Error Nat
  fetch : Nat → Except Error Package

/-- The post-fetch race resolution of `PackageCache::package`
(cache.rs lines 78–90): under the re-acquired lock, peek at the current
entry; if it has version ≥ the freshly fetched one, keep it, promote its
recency and return it, otherwise push the fresh package and return that.
Returns the package handed to the caller and the new cache state. -/
def resolveRace (c : Lru) (id : Nat) (package : Package) : Package × Lru :=
  match c.peek id with
  | some prev =>
    if package.version ≤ prev.version then (prev, c.touch id)
    else (package, c.push id package)
  | none => (package, c.push id package)

/-- Outcome of one sequential `PackageCache::package` call: the returned
value, the cache state afterwards, and the store queries issued. -/
structure PkgResult where
  result : Except Error Package
  cache : Lru
  ops : List StoreOp
  deriving Repr

/-- Model of `PackageCache::package` (cache.rs lines 55–91), run without interleaving:
look up (and promote) the candidate under the lock; return a non-system hit
immediately; for a system hit check the store's current version and return
the hit if still current; otherwise fetch from the store and resolve the
race against the current cache contents. -/
def PackageCache.package (store : Store) (c : Lru) (id : Nat) : PkgResult :=
  let candidate := c.peek id
  let c₁ := c.touch id
  match candidate with
  | some package =>
    if is_system_package id then
      match store.version id with
      | .error e => ⟨.error e, c₁, [.version id]⟩
      | .ok v =>
        if v ≤ package.version then ⟨.ok package, c₁, [.version id]⟩
        else
          match store.fetch id with
          | .error e => ⟨.error e, c₁, [.version id, .fetch id]⟩
          | .ok fresh =>
            let (ret, c₂) := resolveRace c₁ id fresh
            ⟨.ok ret, c₂, [.version id, .fetch id]⟩
    else ⟨.ok package, c₁, []⟩
  | none =>
    match store.fetch id with
    | .error e => ⟨.error e, c₁, [.fetch id]⟩
    | .ok fresh =>
      let (ret, c₂) := resolveRace c₁ id fresh
      ⟨.ok ret, c₂, [.fetch id]⟩

/-- The atomic cache mutations any interleaving of `PackageCache::package`
calls can perform while holding the lock: the initial lookup (which promotes
a hit's recency) and the post-fetch race resolution. The store I/O between
them happens outside the lock and does not touch the cache. -/
inductive CacheStep : Lru → Lru → Prop where
  | lookup (c : Lru) (id : Nat) : CacheStep c (c.touch id)
  | resolve (c : Lru) (id : Nat) (package : Package) :
      CacheStep c (resolveRace c id package).2

/-! ## The database-backed store (store.rs, `DbPackageStore`) -/

/-- Serialized object bytes (`serialized_object` column), opaque except for
whether `bcs::from_bytes::<Object>` succeeds on them. -/
inductive ObjBytes where
  | valid (o : Object)
  | malformed
  deriving DecidableEq, Repr

/-- Model of `bcs::from_bytes::<Object>` (external `bcs` crate). -/
def bcs_from_bytes : ObjBytes → Except Error Object
  | .valid o => .ok o
  | .malformed => .error .Bcs

/-- The indexer database behind `DbPackageStore`: for an object id, the
latest `(object_version, serialized_object)` row, or nothing. -/
structure IndexerDb where
  query : Nat → Option (Nat × ObjBytes)

/-- Model of `DbPackageStore::version`: select the latest `object_version` for `id`;
`PackageNotFound` if there is no row. -/
def DbPackageStore.version (db : IndexerDb) (id : Nat) : Except Error Nat :=
  match db.query id with
  | none => .error (.PackageNotFound id)
  | some (v, _) => .ok v

/-- Model of `DbPackageStore::fetch`: select the latest row for `id`
(`PackageNotFound` if there is none), decode the object from its BCS bytes
and materialize it with `make_package`. -/
def DbPackageStore.fetch (db : IndexerDb) (id : Nat) : Except Error Package :=
  match db.query id with
  | none => .error (.PackageNotFound id)
  | some (v, bytes) =>
    match bcs_from_bytes bytes with
    | .error e => .error e
    | .ok object => make_package id v object

/-- Outcome of a Rust call that may also panic instead of returning. -/
inductive RustResult (α : Type) where
  | ok (a : α)
  | err (e : Error)
  | panicked (msg : String)
  deriving DecidableEq, Repr

/-- Whether a `RustResult` is a returned error. -/
def RustResult.isErr {α : Type} : RustResult α → Bool
  | .err _ => true
  | _ => false

/-- Whether a `RustResult` is a panic. -/
def RustResult.isPanicked {α : Type} : RustResult α → Bool
  | .panicked _ => true
  | _ => false

/-- Model of `DbPackageStore::update`: `unimplemented!("Package update is not
implemented")` — it panics unconditionally instead of returning. -/
def DbPackageStore.update (_object : Object) : RustResult Unit :=
  .panicked "Package update is not implemented"

/-- The `PackageStore` view of a `DbPackageStore`, as consumed by the cache. -/
def IndexerDb.toStore (db : IndexerDb) : Store :=
  ⟨DbPackageStore.version db, DbPackageStore.fetch db⟩

/-! ## The local-persistent store (store.rs, `LocalDBPackageStore`) -/

/-- The durable `packages: DBMap<ObjectID, Object>` table of
`PackageStoreTables`. -/
structure LocalTables where
  packages : List (Nat × Object)
  deriving DecidableEq, Repr

/-- Model of `PackageStoreTables::update`: write `object.id() ↦ object` into the
durable table. -/
def PackageStoreTables.update (t : LocalTables) (package : Object) : LocalTables :=
  ⟨insertKV t.packages package.id package⟩

/-- Model of `LocalDBPackageStore::update`: persist the object if it is a package,
otherwise return `Ok(())` without writing anything. -/
def LocalDBPackageStore.update (t : LocalTables) (object : Object) :
    Except Error LocalTables :=
  match object.data.try_as_package with
  | none => .ok t
  | some _ => .ok (PackageStoreTables.update t object)

/-- Outcome of one `LocalDBPackageStore::get` call: the returned object, the
durable table afterwards, and the number of remote fallback fetches issued. -/
structure GetResult where
  result : Except Error Object
  tables : LocalTables
  remoteFetches : Nat
  deriving Repr

/-- Model of `LocalDBPackageStore::get`: read from the local table; on a miss, ask the
remote fallback client (any remote failure is surfaced as
`PackageNotFound`), persist the fetched object via `update`, and return it. -/
def LocalDBPackageStore.get (remote : Nat → Except Unit Object)
    (t : LocalTables) (id : Nat) : GetResult :=
  match lookupKV t.packages id with
  | some object => ⟨.ok object, t, 0⟩
  | none =>
    match remote id with
    | .error _ => ⟨.error (.PackageNotFound id), t, 1⟩
    | .ok object =>
      match LocalDBPackageStore.update t object with
      | .error e => ⟨.error e, t, 1⟩
      | .ok t' => ⟨.ok object, t', 1⟩

/-- Model of `LocalDBPackageStore::version`: the version of the object `get` returns. -/
def LocalDBPackageStore.version (remote : Nat → Except Unit Object)
    (t : LocalTables) (id : Nat) : Except Error Nat :=
  ((LocalDBPackageStore.get remote t id).result).map (·.version)

/-- Model of `LocalDBPackageStore::fetch`: materialize the object `get` returns, keyed
by the object's own id and version. -/
def LocalDBPackageStore.fetch (remote : Nat → Except Unit Object)
    (t : LocalTables) (id : Nat) : Except Error Package :=
  match (LocalDBPackageStore.get remote t id).result with
  | .error e => .error e
  | .ok object => make_package object.id object.version object

/-! ## Derived observations used to state properties -/

/-- The compiled module carried by valid module bytes (the default value is
irrelevant: it is only consulted under a `moduleOkB` hypothesis). -/
def bytesModule : ModuleBytes → CompiledModule
  | .valid m => m
  | .malformed => ⟨0, []⟩

/-- Whether one entry of the serialized module map deserializes and has a
type-origin entry (in the index `tos`) for every struct its bytecode
declares — the conditions under which the materializer's module loop accepts
it. -/
def moduleOkB (tos : List (String × List (String × Nat)))
    (e : String × ModuleBytes) : Bool :=
  match e.2 with
  | .malformed => false
  | .valid cm =>
    cm.structs.all (fun s => (lookupKV ((lookupKV tos e.1).getD []) s).isSome)

/-- The module the loop constructs for one entry of the serialized module
map: its bytecode plus its slice of the type-origin index. -/
def mkModule (tos : List (String × List (String × Nat)))
    (e : String × ModuleBytes) : Module :=
  ⟨bytesModule e.2, (lookupKV tos e.1).getD []⟩

/-- The runtime id the module loop ends with: the self address of the last
module processed, or the initial value if there are no modules. -/
def lastRuntime (mm : List (String × ModuleBytes)) (rid : Option Nat) :
    Option Nat :=
  match mm.getLast? with
  | none => rid
  | some e => some ((bytesModule e.2).address)

/-- The self address of the last entry of a serialized module map, if any. -/
def lastAddress (mm : List (String × ModuleBytes)) : Option Nat :=
  mm.getLast?.map (fun e => (bytesModule e.2).address)

/-- Reading a type-origin entry back out of a materialized package: the
defining package recorded for struct `s` of module `m`. -/
def pkgOriginLookup (pkg : Package) (m s : String) : Option Nat :=
  (lookupKV pkg.modules m).bind (fun module => lookupKV module.struct_origins s)

/-- Looking `(m, s)` up in a two-level type-origin index. -/
def originIndexLookup (acc : List (String × List (String × Nat)))
    (m s : String) : Option Nat :=
  lookupKV ((lookupKV acc m).getD []) s

/-- The implicit invariant of the local-persistent store's durable table:
every object it holds is a package. -/
def tableOnlyPackages (t : LocalTables) : Prop :=
  ∀ k o, lookupKV t.packages k = some o → (o.data.try_as_package).isSome

/-- Whether module bytes are well formed (deserializable). -/
def bytesValid : ModuleBytes → Bool
  | .valid _ => true
  | .malformed => false

/-- The runtime id of a materialization result, if it succeeded. -/
def runtimeIdOf (r : Except Error Package) : Option Nat :=
  match r with
  | .ok pkg => some pkg.runtime_id
  | .error _ => none

/-- Whether an `Except` result is a success. -/
def exceptIsOk {ε α : Type} : Except ε α → Bool
  | .ok _ => true
  | .error _ => false

/-! ## Concrete fixtures for witness checks -/

/-- A non-system package at storage id 5, version 1. -/
def pkgV1 : Package := ⟨5, 5, 1, [], []⟩

/-- A non-system package at storage id 5, version 2. -/
def pkgV2 : Package := ⟨5, 5, 2, [], []⟩

/-- A system package at storage id 2, version 3. -/
def sysPkgV3 : Package := ⟨2, 2, 3, [], []⟩

/-- A system package at storage id 2, version 5. -/
def sysPkgV5 : Package := ⟨2, 2, 5, [], []⟩

/-- A cache holding `pkgV2` under id 5. -/
def lruW : Lru := ⟨1024, [(5, pkgV2)]⟩

/-- A cache holding `sysPkgV3` under the system id 2. -/
def lruSys : Lru := ⟨1024, [(2, sysPkgV3)]⟩

/-- An empty cache. -/
def emptyLru : Lru := ⟨1024, []⟩

/-- A store reporting version 5 for every id and serving `sysPkgV5`. -/
def storeV5 : Store := ⟨fun _ => .ok 5, fun _ => .ok sysPkgV5⟩

/-- A store reporting version 3 for every id and serving `sysPkgV5`. -/
def storeV3 : Store := ⟨fun _ => .ok 3, fun _ => .ok sysPkgV5⟩

/-- A store serving `pkgV1` for every fetch. -/
def storeP1 : Store := ⟨fun _ => .ok 1, fun _ => .ok pkgV1⟩

/-- A non-package object with id 5. -/
def npObj : Object := ⟨5, 1, .other⟩

/-- A remote fallback client holding only the non-package object `npObj`. -/
def remoteNp : Nat → Except Unit Object := fun i =>
  if i = 5 then .ok npObj else .error ()

/-- An empty durable table. -/
def emptyTables : LocalTables := ⟨[]⟩

/-- Package data with one module `m` declaring struct `S` with an origin. -/
def pkgObjMp : MovePackage := ⟨[⟨"m", "S", 7⟩], [("m", .valid ⟨4, ["S"]⟩)], []⟩

/-- A package object with id 6 carrying `pkgObjMp`. -/
def pkgObj : Object := ⟨6, 1, .package pkgObjMp⟩

/-- A remote fallback client holding only the package object `pkgObj`. -/
def remotePkg : Nat → Except Unit Object := fun i =>
  if i = 6 then .ok pkgObj else .error ()

/-- Package data whose type-origin table names a module `ghost` that is not
in the serialized module map. -/
def ghostMp : MovePackage := ⟨[⟨"ghost", "S", 7⟩], [("m", .valid ⟨9, []⟩)], []⟩

/-- A package object carrying `ghostMp`. -/
def ghostObj : Object := ⟨1, 1, .package ghostMp⟩

/-- Package data with an empty module map. -/
def emptyMp : MovePackage := ⟨[], [], []⟩

/-- Package data whose single module has malformed bytes. -/
def malformedMp : MovePackage := ⟨[], [("m", .malformed)], []⟩

/-- Package data whose single module declares struct `S` with no origin. -/
def noOriginMp : MovePackage := ⟨[], [("m", .valid ⟨4, ["S"]⟩)], []⟩

/-- Package data with two modules declaring divergent self addresses. -/
def divergentMp : MovePackage :=
  ⟨[], [("a", .valid ⟨10, []⟩), ("b", .valid ⟨20, []⟩)], []⟩

/-- A package object carrying `divergentMp`. -/
def divergentObj : Object := ⟨8, 1, .package divergentMp⟩

/-- A package object with an empty module map. -/
def emptyObj : Object := ⟨7, 1, .package emptyMp⟩

/-- A package object whose single module has malformed bytes. -/
def malformedObj : Object := ⟨11, 1, .package malformedMp⟩

/-- A package object whose single module declares a struct with no origin. -/
def noOriginObj : Object := ⟨12, 1, .package noOriginMp⟩

/-- An indexer database with no rows. -/
def emptyDb : IndexerDb := ⟨fun _ => none⟩

/-- A remote fallback client that fails every request. -/
def failRemote : Nat → Except Unit Object := fun _ => .error ()

/-! ## Association-list and LRU lemmas -/

theorem lookupKV_insert_self {κ β : Type} [DecidableEq κ] (m : List (κ × β))
    (k : κ) (v : β) : lookupKV (insertKV m k v) k = some v := by
  induction m with
  | nil => simp [insertKV, lookupKV]
  | cons e rest ih =>
    cases e with
    | mk k₀ v₀ =>
      by_cases hk : k₀ = k
      · simp [insertKV, hk, lookupKV]
      · simp [insertKV, hk, lookupKV, ih]

theorem lookupKV_insert_ne {κ β : Type} [DecidableEq κ] (m : List (κ × β))
    (k k' : κ) (v : β) (h : k' ≠ k) :
    lookupKV (insertKV m k v) k' = lookupKV m k' := by
  induction m with
  | nil =>
    have hk : ¬ k = k' := fun hc => h hc.symm
    simp [insertKV, lookupKV, hk]
  | cons e rest ih =>
    cases e with
    | mk k₀ v₀ =>
      by_cases hk : k₀ = k
      · subst hk
        have hk' : ¬ k₀ = k' := fun hc => h hc.symm
        simp [insertKV, lookupKV, hk']
      · simp [insertKV, hk, lookupKV, ih]

theorem insertKV_eq_append_of_none {κ β : Type} [DecidableEq κ]
    (m : List (κ × β)) (k : κ) (v : β) (h : lookupKV m k = none) :
    insertKV m k v = m ++ [(k, v)] := by
  induction m with
  | nil => rfl
  | cons e rest ih =>
    cases e with
    | mk k₀ v₀ =>
      by_cases hk : k₀ = k
      · simp [lookupKV, hk] at h
      · simp only [lookupKV, if_neg hk] at h
        simp [insertKV, hk, ih h]

theorem lookupKV_dropLast {κ β : Type} [DecidableEq κ] (m : List (κ × β))
    (k : κ) (v : β) (h : lookupKV m.dropLast k = some v) :
    lookupKV m k = some v := by
  induction m with
  | nil => simp [lookupKV] at h
  | cons e rest ih =>
    cases rest with
    | nil => simp [List.dropLast, lookupKV] at h
    | cons e' rest' =>
      rw [List.dropLast_cons₂] at h
      cases e with
      | mk k₀ v₀ =>
        by_cases hk : k₀ = k
        · simpa [lookupKV, hk] using h
        · simp only [lookupKV, if_neg hk] at h ⊢
          exact ih h

theorem lookupKV_isSome_iff_mem {κ β : Type} [DecidableEq κ]
    (m : List (κ × β)) (k : κ) :
    (lookupKV m k).isSome ↔ k ∈ m.map Prod.fst := by
  induction m with
  | nil => simp [lookupKV]
  | cons e rest ih =>
    cases e with
    | mk k₀ v₀ =>
      by_cases hk : k₀ = k
      · subst hk; simp [lookupKV]
      · simp only [lookupKV, if_neg hk, List.map_cons, List.mem_cons, ih]
        constructor
        · intro h; exact Or.inr h
        · intro h
          cases h with
          | inl h => exact absurd h.symm hk
          | inr h => exact h

theorem Lru.peek_touch (c : Lru) (id id' : Nat) :
    (c.touch id).peek id' = c.peek id' := by
  unfold Lru.touch
  cases h : lookupKV c.entries id with
  | none => rfl
  | some p =>
    by_cases hid : id = id'
    · subst hid
      simp [Lru.peek, lookupKV, h]
    · have : id' ≠ id := fun hc => hid hc.symm
      simp [Lru.peek, lookupKV, hid, lookupKV_erase_ne _ _ _ this]

theorem Lru.peek_push_self (c : Lru) (id : Nat) (p : Package) :
    (c.push id p).peek id = some p := by
  unfold Lru.push
  cases h : lookupKV c.entries id with
  | some q => simp [Lru.peek, lookupKV]
  | none => simp [Lru.peek, lookupKV]

theorem Lru.peek_push_ne (c : Lru) (id id' : Nat) (p q : Package)
    (hne : id' ≠ id) (h : (c.push id p).peek id' = some q) :
    c.peek id' = some q := by
  unfold Lru.push at h
  show lookupKV c.entries id' = some q
  cases hl : lookupKV c.entries id with
  | some r =>
    rw [hl] at h
    simp only [Lru.peek, lookupKV, if_neg (fun hc : id = id' => hne hc.symm)] at h
    rw [← lookupKV_erase_ne c.entries id id' hne]
    exact h
  | none =>
    rw [hl] at h
    simp only [Lru.peek, lookupKV, if_neg (fun hc : id = id' => hne hc.symm)] at h
    by_cases hlen : c.entries.length < c.cap
    · rw [if_pos hlen] at h
      exact h
    · rw [if_neg hlen] at h
      exact lookupKV_dropLast _ _ _ h

/-! ## C9: `DbPackageStore::update` is unsupported -/

/-- C9 counterexample: the claim says `DbPackageStore::update` "returns an
error rather than ok", but on any object — here a concrete non-package
object — the call does not return an error value at all: it panics
(`unimplemented!`). -/
theorem c9_counterexample :
    (DbPackageStore.update npObj).isErr = false ∧
    (DbPackageStore.update npObj).isPanicked = true :=
  ⟨rfl, rfl⟩

/-- C9 (amended): calling `update` on the database-backed store never
succeeds — for every object it panics with "Package update is not
implemented" instead of returning; in particular it never returns `Ok` and
performs no database write (the store, an `IndexerReader`, is read-only). -/
theorem c9_update_unsupported (object : Object) :
    DbPackageStore.update object = .panicked "Package update is not implemented" :=
  rfl

/-! ## C6: absent ids surface as `PackageNotFound` -/

/-- C6: for an id with no row in the database and no cache entry, both store
operations and `PackageCache::package` fail with `PackageNotFound`; and in
the local-persistent store, a failure of the remote fallback fetch is
surfaced as `PackageNotFound`. -/
theorem c6_absent_not_found (db : IndexerDb) (c : Lru)
    (remote : Nat → Except Unit Object) (t : LocalTables) (id : Nat)
    (hdb : db.query id = none) (hc : c.peek id = none)
    (htbl : lookupKV t.packages id = none) (hrem : remote id = .error ()) :
    DbPackageStore.version db id = .error (.PackageNotFound id) ∧
    DbPackageStore.fetch db id = .error (.PackageNotFound id) ∧
    (PackageCache.package db.toStore c id).result = .error (.PackageNotFound id) ∧
    (LocalDBPackageStore.get remote t id).result = .error (.PackageNotFound id) := by
  refine ⟨?_, ?_, ?_, ?_⟩
  · simp [DbPackageStore.version, hdb]
  · simp [DbPackageStore.fetch, hdb]
  · simp [PackageCache.package, hc, IndexerDb.toStore, DbPackageStore.fetch, hdb]
  · simp [LocalDBPackageStore.get, htbl, hrem]

/-- C6 witness: the conclusions of `c6_absent_not_found` at an empty
database, empty cache, empty durable table and failing remote client. -/
theorem c6_witness :
    DbPackageStore.version emptyDb 5 = .error (.PackageNotFound 5) ∧
    DbPackageStore.fetch emptyDb 5 = .error (.PackageNotFound 5) ∧
    (PackageCache.package emptyDb.toStore emptyLru 5).result
      = .error (.PackageNotFound 5) ∧
    (LocalDBPackageStore.get failRemote emptyTables 5).result
      = .error (.PackageNotFound 5) :=
  c6_absent_not_found emptyDb emptyLru failRemote emptyTables 5 rfl rfl rfl rfl

/-! ## C5: `LocalDBPackageStore::get` miss behaviour -/

/-- C5 counterexample: the claim says a subsequent `get` for the same id
performs zero remote fetches — but when the remote object is not a package
(here `npObj`), the first `get` returns it without persisting it, so the
second `get` misses again and performs a second remote fetch. -/
theorem c5_counterexample :
    (LocalDBPackageStore.get remoteNp emptyTables 5).remoteFetches = 1 ∧
    (LocalDBPackageStore.get remoteNp emptyTables 5).result = .ok npObj ∧
    (LocalDBPackageStore.get remoteNp
        (LocalDBPackageStore.get remoteNp emptyTables 5).tables 5).remoteFetches
      = 1 :=
  ⟨rfl, rfl, rfl⟩

/-- C5 (amended): on a local-table miss, `get` performs exactly one remote
fetch and returns the fetched object, persisting it only if it is a package
(keyed by the object's own id); a subsequent `get` for the same id performs
zero remote fetches provided the fetched object was a package whose id
equals the requested id; and a `get` that hits the local table performs zero
remote fetches. -/
theorem c5_get_one_fetch (remote : Nat → Except Unit Object)
    (t : LocalTables) (id : Nat)
    (hmiss : lookupKV t.packages id = none) :
    (LocalDBPackageStore.get remote t id).remoteFetches = 1 ∧
    (∀ o p, remote id = .ok o → o.data.try_as_package = some p →
      LocalDBPackageStore.get remote t id =
        ⟨.ok o, PackageStoreTables.update t o, 1⟩) ∧
    (∀ o, remote id = .ok o → o.data.try_as_package = none →
      LocalDBPackageStore.get remote t id = ⟨.ok o, t, 1⟩) ∧
    (∀ o p, remote id = .ok o → o.data.try_as_package = some p → o.id = id →
      LocalDBPackageStore.get remote
          (LocalDBPackageStore.get remote t id).tables id =
        ⟨.ok o, (LocalDBPackageStore.get remote t id).tables, 0⟩) ∧
    (∀ t' o', lookupKV t'.packages id = some o' →
      LocalDBPackageStore.get remote t' id = ⟨.ok o', t', 0⟩) := by
  refine ⟨?_, ?_, ?_, ?_, ?_⟩
  · cases hrm : remote id with
    | error e => simp [LocalDBPackageStore.get, hmiss, hrm]
    | ok o =>
      cases ho : o.data.try_as_package with
      | none =>
        simp [LocalDBPackageStore.get, hmiss, hrm, LocalDBPackageStore.update, ho]
      | some p =>
        simp [LocalDBPackageStore.get, hmiss, hrm, LocalDBPackageStore.update, ho]
  · intro o p hrm ho
    simp [LocalDBPackageStore.get, hmiss, hrm, LocalDBPackageStore.update, ho]
  · intro o hrm ho
    simp [LocalDBPackageStore.get, hmiss, hrm, LocalDBPackageStore.update, ho]
  · intro o p hrm ho hid
    have h1 : LocalDBPackageStore.get remote t id =
        ⟨.ok o, PackageStoreTables.update t o, 1⟩ := by
      simp [LocalDBPackageStore.get, hmiss, hrm, LocalDBPackageStore.update, ho]
    rw [h1]
    have h2 : lookupKV (PackageStoreTables.update t o).packages id = some o := by
      simp [PackageStoreTables.update, hid, lookupKV_insert_self]
    simp [LocalDBPackageStore.get, h2]
  · intro t' o' hhit
    simp [LocalDBPackageStore.get, hhit]

/-- C5 witness: the first `get` for the package object `pkgObj` performs one
remote fetch, and a second `get` for the same id performs zero. -/
theorem c5_witness :
    (LocalDBPackageStore.get remotePkg emptyTables 6).remoteFetches = 1 ∧
    LocalDBPackageStore.get remotePkg
        (LocalDBPackageStore.get remotePkg emptyTables 6).tables 6 =
      ⟨.ok pkgObj, (LocalDBPackageStore.get remotePkg emptyTables 6).tables, 0⟩ :=
  ⟨(c5_get_one_fetch remotePkg emptyTables 6 rfl).1,
   (c5_get_one_fetch remotePkg emptyTables 6 rfl).2.2.2.1 pkgObj pkgObjMp rfl rfl rfl⟩

/-! ## C10: the durable local table only ever holds packages -/

theorem update_tableOnlyPackages (t : LocalTables) (o : Object)
    (t' : LocalTables) (ht : tableOnlyPackages t)
    (h : LocalDBPackageStore.update t o = .ok t') : tableOnlyPackages t' := by
  unfold LocalDBPackageStore.update at h
  cases ho : o.data.try_as_package with
  | none =>
    rw [ho] at h
    cases h
    exact ht
  | some p =>
    rw [ho] at h
    cases h
    intro k obj hk
    by_cases hko : k = o.id
    · subst hko
      rw [PackageStoreTables.update, show (⟨insertKV t.packages o.id o⟩ : LocalTables).packages = insertKV t.packages o.id o from rfl, lookupKV_insert_self] at hk
      cases hk
      simp [ho]
    · rw [PackageStoreTables.update, show (⟨insertKV t.packages o.id o⟩ : LocalTables).packages = insertKV t.packages o.id o from rfl, lookupKV_insert_ne _ _ _ _ hko] at hk
      exact ht k obj hk

/-- C10: `LocalDBPackageStore::update` is an `Ok` no-op on non-package
objects; both `update` and `get` preserve the invariant that the durable
table holds only package objects; and a non-package object fetched by `get`
is returned to the caller but never persisted. -/
theorem c10_only_packages_persisted (remote : Nat → Except Unit Object)
    (t t' : LocalTables) (object : Object) (id : Nat) :
    (object.data.try_as_package = none →
      LocalDBPackageStore.update t object = .ok t) ∧
    (tableOnlyPackages t → LocalDBPackageStore.update t object = .ok t' →
      tableOnlyPackages t') ∧
    (tableOnlyPackages t →
      tableOnlyPackages (LocalDBPackageStore.get remote t id).tables) ∧
    (lookupKV t.packages id = none → remote id = .ok object →
      object.data.try_as_package = none →
      LocalDBPackageStore.get remote t id = ⟨.ok object, t, 1⟩) := by
  refine ⟨?_, ?_, ?_, ?_⟩
  · intro ho
    simp [LocalDBPackageStore.update, ho]
  · exact update_tableOnlyPackages t object t'
  · intro ht
    cases hl : lookupKV t.packages id with
    | some o => simpa [LocalDBPackageStore.get, hl] using ht
    | none =>
      cases hrm : remote id with
      | error e => simpa [LocalDBPackageStore.get, hl, hrm] using ht
      | ok o =>
        cases hu : LocalDBPackageStore.update t o with
        | error e => simpa [LocalDBPackageStore.get, hl, hrm, hu] using ht
        | ok t'' =>
          simpa [LocalDBPackageStore.get, hl, hrm, hu] using
            update_tableOnlyPackages t o t'' ht hu
  · intro hmiss hrm ho
    simp [LocalDBPackageStore.get, hmiss, hrm, LocalDBPackageStore.update, ho]

/-- C10 witness: at the empty table, updating with the non-package `npObj`
is an `Ok` no-op, and a `get` that fetches `npObj` remotely returns it
without persisting it. -/
theorem c10_witness :
    LocalDBPackageStore.update emptyTables npObj = .ok emptyTables ∧
    LocalDBPackageStore.get remoteNp emptyTables 5 = ⟨.ok npObj, emptyTables, 1⟩ :=
  ⟨(c10_only_packages_persisted remoteNp emptyTables emptyTables npObj 5).1 rfl,
   (c10_only_packages_persisted remoteNp emptyTables emptyTables npObj 5).2.2.2
     rfl rfl rfl⟩

/-! ## Scenario lemmas for `PackageCache.package` -/

theorem Lru.touch_none (c : Lru) (id : Nat) (h : c.peek id = none) :
    c.touch id = c := by
  have h' : lookupKV c.entries id = none := h
  unfold Lru.touch
  rw [h']

theorem package_hit_nonsystem (store : Store) (c : Lru) (id : Nat) (p : Package)
    (hpeek : c.peek id = some p) (hsys : is_system_package id = false) :
    PackageCache.package store c id = ⟨.ok p, c.touch id, []⟩ := by
  simp [PackageCache.package, hpeek, hsys]

theorem package_miss_fetch_ok (store : Store) (c : Lru) (id : Nat)
    (fresh : Package) (hpeek : c.peek id = none)
    (hf : store.fetch id = .ok fresh) :
    PackageCache.package store c id = ⟨.ok fresh, c.push id fresh, [.fetch id]⟩ := by
  simp [PackageCache.package, hpeek, hf, Lru.touch_none c id hpeek, resolveRace]

theorem package_miss_fetch_error (store : Store) (c : Lru) (id : Nat)
    (e : Error) (hpeek : c.peek id = none) (hf : store.fetch id = .error e) :
    PackageCache.package store c id = ⟨.error e, c, [.fetch id]⟩ := by
  simp [PackageCache.package, hpeek, hf, Lru.touch_none c id hpeek]

theorem package_hit_system_current (store : Store) (c : Lru) (id : Nat)
    (p : Package) (v : Nat) (hpeek : c.peek id = some p)
    (hsys : is_system_package id = true) (hv : store.version id = .ok v)
    (hle : v ≤ p.version) :
    PackageCache.package store c id = ⟨.ok p, c.touch id, [.version id]⟩ := by
  simp [PackageCache.package, hpeek, hsys, hv, hle]

theorem package_hit_system_version_error (store : Store) (c : Lru) (id : Nat)
    (p : Package) (e : Error) (hpeek : c.peek id = some p)
    (hsys : is_system_package id = true) (hv : store.version id = .error e) :
    PackageCache.package store c id = ⟨.error e, c.touch id, [.version id]⟩ := by
  simp [PackageCache.package, hpeek, hsys, hv]

theorem package_hit_system_stale (store : Store) (c : Lru) (id : Nat)
    (p fresh : Package) (v : Nat) (hpeek : c.peek id = some p)
    (hsys : is_system_package id = true) (hv : store.version id = .ok v)
    (hlt : p.version < v) (hf : store.fetch id = .ok fresh) :
    PackageCache.package store c id =
      ⟨.ok (resolveRace (c.touch id) id fresh).1,
       (resolveRace (c.touch id) id fresh).2, [.version id, .fetch id]⟩ := by
  simp [PackageCache.package, hpeek, hsys, hv, not_le.mpr hlt, hf]

theorem package_hit_system_stale_error (store : Store) (c : Lru) (id : Nat)
    (p : Package) (v : Nat) (e : Error) (hpeek : c.peek id = some p)
    (hsys : is_system_package id = true) (hv : store.version id = .ok v)
    (hlt : p.version < v) (hf : store.fetch id = .error e) :
    PackageCache.package store c id =
      ⟨.error e, c.touch id, [.version id, .fetch id]⟩ := by
  simp [PackageCache.package, hpeek, hsys, hv, not_le.mpr hlt, hf]

/-! ## C1: version-monotonic race resolution -/

/-- C1: the post-fetch re-check of `PackageCache::package` retains, promotes
and returns the cached entry when its version is ≥ the freshly fetched one,
and otherwise inserts and returns the fresh package; and across every atomic
cache transition any interleaving of `package()` calls can perform, the
version cached under a given id never decreases. -/
theorem c1_race_resolution :
    (∀ (c : Lru) (id : Nat) (fresh prev : Package),
      c.peek id = some prev → fresh.version ≤ prev.version →
      resolveRace c id fresh = (prev, c.touch id)) ∧
    (∀ (c : Lru) (id : Nat) (fresh : Package),
      (c.peek id = none ∨
        ∃ prev, c.peek id = some prev ∧ prev.version < fresh.version) →
      resolveRace c id fresh = (fresh, c.push id fresh)) ∧
    (∀ (c c' : Lru), CacheStep c c' →
      ∀ (id : Nat) (p p' : Package),
        c.peek id = some p → c'.peek id = some p' →
        p.version ≤ p'.version) := by
  refine ⟨?_, ?_, ?_⟩
  · intro c id fresh prev hpeek hle
    simp [resolveRace, hpeek, hle]
  · intro c id fresh h
    cases h with
    | inl hnone => simp [resolveRace, hnone]
    | inr hsome =>
      obtain ⟨prev, hpeek, hlt⟩ := hsome
      simp [resolveRace, hpeek, not_le.mpr hlt]
  · intro c₀ c' step
    cases step with
    | lookup id₀ =>
      intro id p p' hp hp'
      rw [Lru.peek_touch] at hp'
      rw [hp] at hp'
      cases hp'
      exact le_refl _
    | resolve id₀ pkg =>
      intro id p p' hp hp'
      cases hpeek : c₀.peek id₀ with
      | some prev =>
        by_cases hle : pkg.version ≤ prev.version
        · have htouch : (resolveRace c₀ id₀ pkg).2 = c₀.touch id₀ := by
            simp [resolveRace, hpeek, hle]
          rw [htouch, Lru.peek_touch, hp] at hp'
          cases hp'
          exact le_refl _
        · have hpush : (resolveRace c₀ id₀ pkg).2 = c₀.push id₀ pkg := by
            simp [resolveRace, hpeek, hle]
          rw [hpush] at hp'
          by_cases hid : id = id₀
          · subst hid
            rw [hp] at hpeek
            cases hpeek
            rw [Lru.peek_push_self] at hp'
            cases hp'
            exact le_of_lt (lt_of_not_le hle)
          · have h' := Lru.peek_push_ne c₀ id₀ id pkg p' hid hp'
            rw [hp] at h'
            cases h'
            exact le_refl _
      | none =>
        have hpush : (resolveRace c₀ id₀ pkg).2 = c₀.push id₀ pkg := by
          simp [resolveRace, hpeek]
        rw [hpush] at hp'
        by_cases hid : id = id₀
        · subst hid
          rw [hp] at hpeek
          cases hpeek
        · have h' := Lru.peek_push_ne c₀ id₀ id pkg p' hid hp'
          rw [hp] at h'
          cases h'
          exact le_refl _

/-- C1 witness: at a cache holding `pkgV2` (version 2) under id 5, a fetch
of `pkgV1` (version 1) is discarded in favour of the promoted cached entry;
at an empty cache the fetch is inserted; and a lookup step does not decrease
the cached version. -/
theorem c1_witness :
    resolveRace lruW 5 pkgV1 = (pkgV2, Lru.touch lruW 5) ∧
    resolveRace emptyLru 5 pkgV1 = (pkgV1, Lru.push emptyLru 5 pkgV1) ∧
    Package.version pkgV2 ≤ Package.version pkgV2 :=
  ⟨c1_race_resolution.1 lruW 5 pkgV1 pkgV2 rfl (by decide),
   c1_race_resolution.2.1 emptyLru 5 pkgV1 (Or.inl rfl),
   c1_race_resolution.2.2 lruW (Lru.touch lruW 5) (CacheStep.lookup lruW 5) 5
     pkgV2 pkgV2 rfl (by decide)⟩

/-! ## C2: non-system cache hits are served without store queries -/

theorem package_cached_after_success_nonsystem (store : Store) (c : Lru)
    (id : Nat) (q : Package) (hsys : is_system_package id = false)
    (h : (PackageCache.package store c id).result = .ok q) :
    ((PackageCache.package store c id).cache).peek id = some q := by
  cases hpeek : c.peek id with
  | some p =>
    rw [package_hit_nonsystem store c id p hpeek hsys] at h ⊢
    cases h
    rw [Lru.peek_touch]
    exact hpeek
  | none =>
    cases hf : store.fetch id with
    | error e => rw [package_miss_fetch_error store c id e hpeek hf] at h; cases h
    | ok fresh =>
      rw [package_miss_fetch_ok store c id fresh hpeek hf] at h ⊢
      cases h
      exact Lru.peek_push_self c id q

/-- C2: for a non-system id present in the cache, `package(id)` returns the
cached handle itself, immediately, issuing no store query; and after any
successful `package(id)` call for a non-system id, a second sequential call
returns the identical handle with no store query, the two calls issuing at
most one store query in total. -/
theorem c2_nonsystem_cached (store : Store) (c : Lru) (id : Nat)
    (hsys : is_system_package id = false) :
    (∀ q, c.peek id = some q →
      PackageCache.package store c id = ⟨.ok q, c.touch id, []⟩) ∧
    (∀ q, (PackageCache.package store c id).result = .ok q →
      (PackageCache.package store (PackageCache.package store c id).cache id).result
        = .ok q ∧
      (PackageCache.package store (PackageCache.package store c id).cache id).ops
        = [] ∧
      (PackageCache.package store c id).ops.length +
        (PackageCache.package store (PackageCache.package store c id).cache id).ops.length
        ≤ 1) := by
  constructor
  · intro q hpeek
    exact package_hit_nonsystem store c id q hpeek hsys
  · intro q h
    have hcached := package_cached_after_success_nonsystem store c id q hsys h
    have hsecond := package_hit_nonsystem store
      (PackageCache.package store c id).cache id q hcached hsys
    refine ⟨by rw [hsecond], by rw [hsecond], ?_⟩
    rw [hsecond]
    cases hpeek : c.peek id with
    | some p =>
      rw [package_hit_nonsystem store c id p hpeek hsys]
      simp
    | none =>
      cases hf : store.fetch id with
      | error e => rw [package_miss_fetch_error store c id e hpeek hf] at h; cases h
      | ok fresh =>
        rw [package_miss_fetch_ok store c id fresh hpeek hf]
        simp

/-- C2 witness: with `pkgV2` cached under the non-system id 5, one call
returns it with no store query, and a second sequential call returns the
identical handle. -/
theorem c2_witness :
    PackageCache.package storeP1 lruW 5 = ⟨.ok pkgV2, Lru.touch lruW 5, []⟩ ∧
    (PackageCache.package storeP1
        (PackageCache.package storeP1 lruW 5).cache 5).result = .ok pkgV2 :=
  ⟨(c2_nonsystem_cached storeP1 lruW 5 rfl).1 pkgV2 rfl,
   ((c2_nonsystem_cached storeP1 lruW 5 rfl).2 pkgV2 rfl).1⟩

/-! ## C3: system packages are version-checked and transparently refetched -/

/-- C3: for a system package id cached at version `p.version`, `package(id)`
first queries the store's current version; if that version is ≤ the cached
one the cached package is returned unchanged; if it is strictly greater, the
call refetches and (when the store serves a package at the new version)
returns a package with the new, higher version — staleness itself never
produces an error. -/
theorem c3_system_version_check (store : Store) (c : Lru) (id : Nat)
    (p : Package) (hpeek : c.peek id = some p)
    (hsys : is_system_package id = true) :
    ((PackageCache.package store c id).ops.head? = some (.version id)) ∧
    (∀ v, store.version id = .ok v → v ≤ p.version →
      PackageCache.package store c id = ⟨.ok p, c.touch id, [.version id]⟩) ∧
    (∀ v fresh, store.version id = .ok v → p.version < v →
      store.fetch id = .ok fresh → fresh.version = v →
      (PackageCache.package store c id).result = .ok fresh ∧
      (PackageCache.package store c id).cache.peek id = some fresh ∧
      p.version < fresh.version) := by
  refine ⟨?_, ?_, ?_⟩
  · cases hv : store.version id with
    | error e =>
      rw [package_hit_system_version_error store c id p e hpeek hsys hv]
      rfl
    | ok v =>
      by_cases hle : v ≤ p.version
      · rw [package_hit_system_current store c id p v hpeek hsys hv hle]
        rfl
      · cases hf : store.fetch id with
        | error e =>
          rw [package_hit_system_stale_error store c id p v e hpeek hsys hv
            (lt_of_not_le hle) hf]
          rfl
        | ok fresh =>
          rw [package_hit_system_stale store c id p fresh v hpeek hsys hv
            (lt_of_not_le hle) hf]
          rfl
  · intro v hv hle
    exact package_hit_system_current store c id p v hpeek hsys hv hle
  · intro v fresh hv hlt hf hfv
    have hres := package_hit_system_stale store c id p fresh v hpeek hsys hv hlt hf
    have hpeek' : (c.touch id).peek id = some p := by
      rw [Lru.peek_touch]; exact hpeek
    have hlt' : p.version < fresh.version := hfv ▸ hlt
    have hrace : resolveRace (c.touch id) id fresh =
        (fresh, (c.touch id).push id fresh) := by
      simp [resolveRace, hpeek', not_le.mpr hlt']
    rw [hres, hrace]
    exact ⟨rfl, Lru.peek_push_self _ id fresh, hlt'⟩

/-- C3 witness: with the system package `sysPkgV3` (version 3) cached under
id 2, a store still at version 3 yields the cached package unchanged, and a
store at version 5 serving `sysPkgV5` yields the refetched higher-version
package. -/
theorem c3_witness :
    PackageCache.package storeV3 lruSys 2 =
      ⟨.ok sysPkgV3, Lru.touch lruSys 2, [.version 2]⟩ ∧
    (PackageCache.package storeV5 lruSys 2).result = .ok sysPkgV5 ∧
    (PackageCache.package storeV5 lruSys 2).cache.peek 2 = some sysPkgV5 :=
  ⟨(c3_system_version_check storeV3 lruSys 2 sysPkgV3 rfl rfl).2.1 3 rfl
     (by decide),
   ((c3_system_version_check storeV5 lruSys 2 sysPkgV3 rfl rfl).2.2 5 sysPkgV5
     rfl (by decide) rfl rfl).1,
   ((c3_system_version_check storeV5 lruSys 2 sysPkgV3 rfl rfl).2.2 5 sysPkgV5
     rfl (by decide) rfl rfl).2.1⟩

/-! ## Lemmas about the materializer's module loop -/

theorem moduleOkB_erase (tos : List (String × List (String × Nat)))
    (k : String) (e : String × ModuleBytes) (h : e.1 ≠ k) :
    moduleOkB (eraseKV tos k) e = moduleOkB tos e := by
  unfold moduleOkB
  rw [lookupKV_erase_ne tos k e.1 h]

theorem mkModule_erase (tos : List (String × List (String × Nat)))
    (k : String) (e : String × ModuleBytes) (h : e.1 ≠ k) :
    mkModule (eraseKV tos k) e = mkModule tos e := by
  unfold mkModule
  rw [lookupKV_erase_ne tos k e.1 h]

theorem lastRuntime_cons (name : String) (cm : CompiledModule)
    (rest : List (String × ModuleBytes)) (rid : Option Nat) :
    lastRuntime ((name, .valid cm) :: rest) rid =
      lastRuntime rest (some cm.address) := by
  cases rest with
  | nil => simp [lastRuntime, bytesModule]
  | cons r rs =>
    unfold lastRuntime
    rw [List.getLast?_cons_cons]
    cases hg : (r :: rs).getLast? with
    | none => exact absurd (List.getLast?_eq_none_iff.mp hg) (by simp)
    | some e => rfl

theorem lastRuntime_of_ne_nil (mm : List (String × ModuleBytes))
    (rid : Option Nat) (h : mm ≠ []) : lastRuntime mm rid = lastAddress mm := by
  unfold lastRuntime lastAddress
  cases hg : mm.getLast? with
  | none => exact absurd (List.getLast?_eq_none_iff.mp hg) h
  | some e => simp

theorem processModules_ok (id : Nat) (mm : List (String × ModuleBytes))
    (tos : List (String × List (String × Nat))) (rid : Option Nat)
    (acc : List (String × Module))
    (hnodup : (mm.map Prod.fst).Nodup)
    (hacc : ∀ e ∈ mm, lookupKV acc e.1 = none)
    (hok : ∀ e ∈ mm, moduleOkB tos e = true) :
    processModules id mm tos rid acc =
      .ok (lastRuntime mm rid, acc ++ mm.map (fun e => (e.1, mkModule tos e))) := by
  induction mm generalizing tos rid acc with
  | nil => simp [processModules, lastRuntime]
  | cons e rest ih =>
    cases e with
    | mk name bytes =>
      have hokhead := hok (name, bytes) (List.mem_cons_self _ _)
      cases bytes with
      | malformed => simp [moduleOkB] at hokhead
      | valid cm =>
        have hall : ∀ s ∈ cm.structs,
            (lookupKV ((lookupKV tos name).getD []) s).isSome = true := by
          simpa [moduleOkB, List.all_eq_true] using hokhead
        have hfind : cm.structs.find?
            (fun s => (lookupKV ((lookupKV tos name).getD []) s).isNone) = none := by
          apply List.find?_eq_none.mpr
          intro s hs
          have h1 := hall s hs
          cases hx : lookupKV ((lookupKV tos name).getD []) s with
          | none => rw [hx] at h1; simp at h1
          | some w => simp [hx]
        have hnd : (name :: rest.map Prod.fst).Nodup := hnodup
        have hname_notin : name ∉ rest.map Prod.fst := (List.nodup_cons.mp hnd).1
        have hrest_nodup : (rest.map Prod.fst).Nodup := (List.nodup_cons.mp hnd).2
        have hne : ∀ e ∈ rest, e.1 ≠ name := by
          intro e he hc
          exact hname_notin (hc ▸ List.mem_map_of_mem Prod.fst he)
        have hacc' : ∀ e ∈ rest,
            lookupKV (insertKV acc name ⟨cm, (lookupKV tos name).getD []⟩) e.1
              = none := by
          intro e he
          rw [lookupKV_insert_ne _ _ _ _ (hne e he)]
          exact hacc e (List.mem_cons_of_mem _ he)
        have hok' : ∀ e ∈ rest, moduleOkB (eraseKV tos name) e = true := by
          intro e he
          rw [moduleOkB_erase tos name e (hne e he)]
          exact hok e (List.mem_cons_of_mem _ he)
        have hstep : processModules id ((name, ModuleBytes.valid cm) :: rest)
            tos rid acc = processModules id rest (eraseKV tos name)
              (some cm.address)
              (insertKV acc name ⟨cm, (lookupKV tos name).getD []⟩) := by
          simp [processModules, deserialize_with_defaults, Module.read, hfind]
        rw [hstep, ih (eraseKV tos name) (some cm.address) _ hrest_nodup hacc' hok']
        rw [insertKV_eq_append_of_none acc name _
          (hacc (name, ModuleBytes.valid cm) (List.mem_cons_self _ _))]
        rw [lastRuntime_cons]
        have hmap : rest.map (fun e => (e.1, mkModule (eraseKV tos name) e)) =
            rest.map (fun e => (e.1, mkModule tos e)) := by
          apply List.map_congr_left
          intro e he
          rw [mkModule_erase tos name e (hne e he)]
        rw [hmap]
        simp [mkModule, bytesModule]

theorem processModules_error_shape (id : Nat)
    (mm : List (String × ModuleBytes))
    (tos : List (String × List (String × Nat))) (rid : Option Nat)
    (acc : List (String × Module)) (e : Error)
    (h : processModules id mm tos rid acc = .error e) :
    e = .Deserialize ∨ ∃ n s, e = .NoTypeOrigin id n s := by
  induction mm generalizing tos rid acc with
  | nil => simp [processModules] at h
  | cons hd rest ih =>
    cases hd with
    | mk name bytes =>
      cases bytes with
      | malformed =>
        simp [processModules, deserialize_with_defaults] at h
        exact Or.inl h.symm
      | valid cm =>
        rw [show processModules id ((name, ModuleBytes.valid cm) :: rest)
              tos rid acc =
            (match Module.read cm ((lookupKV tos name).getD []) with
             | .error s => .error (.NoTypeOrigin id name s)
             | .ok module => processModules id rest (eraseKV tos name)
                 (some cm.address) (insertKV acc name module))
          from by simp [processModules, deserialize_with_defaults]] at h
        cases hr : Module.read cm ((lookupKV tos name).getD []) with
        | error s =>
          rw [hr] at h
          cases h
          exact Or.inr ⟨name, s, rfl⟩
        | ok module =>
          rw [hr] at h
          exact ih _ _ _ h

theorem processModules_runtime_isSome (id : Nat)
    (mm : List (String × ModuleBytes))
    (tos : List (String × List (String × Nat))) (r : Nat)
    (acc : List (String × Module)) (orid : Option Nat)
    (mods : List (String × Module))
    (h : processModules id mm tos (some r) acc = .ok (orid, mods)) :
    orid.isSome = true := by
  induction mm generalizing tos r acc with
  | nil =>
    simp [processModules] at h
    rw [← h.1]
    rfl
  | cons hd rest ih =>
    cases hd with
    | mk name bytes =>
      cases bytes with
      | malformed => simp [processModules, deserialize_with_defaults] at h
      | valid cm =>
        rw [show processModules id ((name, ModuleBytes.valid cm) :: rest)
              tos (some r) acc =
            (match Module.read cm ((lookupKV tos name).getD []) with
             | .error s => .error (.NoTypeOrigin id name s)
             | .ok module => processModules id rest (eraseKV tos name)
                 (some cm.address) (insertKV acc name module))
          from by simp [processModules, deserialize_with_defaults]] at h
        cases hr : Module.read cm ((lookupKV tos name).getD []) with
        | error s => rw [hr] at h; cases h
        | ok module =>
          rw [hr] at h
          exact ih _ cm.address _ h

theorem processModules_deserialize (id : Nat)
    (pre post : List (String × ModuleBytes)) (n : String)
    (tos : List (String × List (String × Nat))) (rid : Option Nat)
    (acc : List (String × Module))
    (hnodup : (pre.map Prod.fst).Nodup)
    (hok : ∀ e ∈ pre, moduleOkB tos e = true) :
    processModules id (pre ++ (n, ModuleBytes.malformed) :: post) tos rid acc =
      .error .Deserialize := by
  induction pre generalizing tos rid acc with
  | nil => simp [processModules, deserialize_with_defaults]
  | cons hd rest ih =>
    cases hd with
    | mk name bytes =>
      have hokhead := hok (name, bytes) (List.mem_cons_self _ _)
      cases bytes with
      | malformed => simp [moduleOkB] at hokhead
      | valid cm =>
        have hall : ∀ s ∈ cm.structs,
            (lookupKV ((lookupKV tos name).getD []) s).isSome = true := by
          simpa [moduleOkB, List.all_eq_true] using hokhead
        have hfind : cm.structs.find?
            (fun s => (lookupKV ((lookupKV tos name).getD []) s).isNone) = none := by
          apply List.find?_eq_none.mpr
          intro s hs
          have h1 := hall s hs
          cases hx : lookupKV ((lookupKV tos name).getD []) s with
          | none => rw [hx] at h1; simp at h1
          | some w => simp [hx]
        have hnd : (name :: rest.map Prod.fst).Nodup := hnodup
        have hname_notin : name ∉ rest.map Prod.fst := (List.nodup_cons.mp hnd).1
        have hrest_nodup : (rest.map Prod.fst).Nodup := (List.nodup_cons.mp hnd).2
        have hne : ∀ e ∈ rest, e.1 ≠ name := by
          intro e he hc
          exact hname_notin (hc ▸ List.mem_map_of_mem Prod.fst he)
        have hok' : ∀ e ∈ rest, moduleOkB (eraseKV tos name) e = true := by
          intro e he
          rw [moduleOkB_erase tos name e (hne e he)]
          exact hok e (List.mem_cons_of_mem _ he)
        have hstep : processModules id
            (((name, ModuleBytes.valid cm) :: rest) ++
              (n, ModuleBytes.malformed) :: post) tos rid acc =
            processModules id (rest ++ (n, ModuleBytes.malformed) :: post)
              (eraseKV tos name) (some cm.address)
              (insertKV acc name ⟨cm, (lookupKV tos name).getD []⟩) := by
          simp [processModules, deserialize_with_defaults, Module.read, hfind]
        rw [hstep]
        exact ih _ _ _ hrest_nodup hok'

theorem processModules_noorigin (id : Nat)
    (pre post : List (String × ModuleBytes)) (n : String)
    (cm : CompiledModule)
    (tos : List (String × List (String × Nat))) (rid : Option Nat)
    (acc : List (String × Module)) (s : String)
    (hnodup : (pre.map Prod.fst).Nodup)
    (hnot : n ∉ pre.map Prod.fst)
    (hok : ∀ e ∈ pre, moduleOkB tos e = true)
    (hs : s ∈ cm.structs)
    (hmiss : lookupKV ((lookupKV tos n).getD []) s = none) :
    ∃ s', processModules id (pre ++ (n, ModuleBytes.valid cm) :: post)
        tos rid acc = .error (.NoTypeOrigin id n s') := by
  induction pre generalizing tos rid acc with
  | nil =>
    have hsome : (cm.structs.find?
        (fun x => (lookupKV ((lookupKV tos n).getD []) x).isNone)).isSome = true := by
      apply List.find?_isSome.mpr
      exact ⟨s, hs, by simp [hmiss]⟩
    obtain ⟨s', hfind⟩ := Option.isSome_iff_exists.mp hsome
    refine ⟨s', ?_⟩
    simp [processModules, deserialize_with_defaults, Module.read, hfind]
  | cons hd rest ih =>
    cases hd with
    | mk name bytes =>
      have hokhead := hok (name, bytes) (List.mem_cons_self _ _)
      cases bytes with
      | malformed => simp [moduleOkB] at hokhead
      | valid cm₀ =>
        have hall : ∀ x ∈ cm₀.structs,
            (lookupKV ((lookupKV tos name).getD []) x).isSome = true := by
          simpa [moduleOkB, List.all_eq_true] using hokhead
        have hfind : cm₀.structs.find?
            (fun x => (lookupKV ((lookupKV tos name).getD []) x).isNone) = none := by
          apply List.find?_eq_none.mpr
          intro x hx
          have h1 := hall x hx
          cases hy : lookupKV ((lookupKV tos name).getD []) x with
          | none => rw [hy] at h1; simp at h1
          | some w => simp [hy]
        have hnd : (name :: rest.map Prod.fst).Nodup := hnodup
        have hname_notin : name ∉ rest.map Prod.fst := (List.nodup_cons.mp hnd).1
        have hrest_nodup : (rest.map Prod.fst).Nodup := (List.nodup_cons.mp hnd).2
        have hn_ne : n ≠ name := by
          intro hc
          exact hnot (by simp [hc])
        have hnot' : n ∉ rest.map Prod.fst := by
          intro hc
          exact hnot (by simp [hc])
        have hne : ∀ e ∈ rest, e.1 ≠ name := by
          intro e he hc
          exact hname_notin (hc ▸ List.mem_map_of_mem Prod.fst he)
        have hok' : ∀ e ∈ rest, moduleOkB (eraseKV tos name) e = true := by
          intro e he
          rw [moduleOkB_erase tos name e (hne e he)]
          exact hok e (List.mem_cons_of_mem _ he)
        have hmiss' : lookupKV ((lookupKV (eraseKV tos name) n).getD []) s = none := by
          rw [lookupKV_erase_ne tos name n hn_ne]
          exact hmiss
        have hstep : processModules id
            (((name, ModuleBytes.valid cm₀) :: rest) ++
              (n, ModuleBytes.valid cm) :: post) tos rid acc =
            processModules id (rest ++ (n, ModuleBytes.valid cm) :: post)
              (eraseKV tos name) (some cm₀.address)
              (insertKV acc name ⟨cm₀, (lookupKV tos name).getD []⟩) := by
          simp [processModules, deserialize_with_defaults, Module.read, hfind]
        rw [hstep]
        exact ih _ _ _ hrest_nodup hnot' hok' hmiss'

/-! ## Lemmas about the type-origin index -/

theorem originIndexLookup_addOriginRow (acc : List (String × List (String × Nat)))
    (row : TypeOrigin) (m s : String) :
    originIndexLookup (addOriginRow acc row) m s =
      if row.module_name = m ∧ row.struct_name = s then some row.package
      else originIndexLookup acc m s := by
  unfold addOriginRow originIndexLookup
  by_cases hm : m = row.module_name
  · subst hm
    rw [lookupKV_insert_self]
    by_cases hs : s = row.struct_name
    · subst hs
      rw [Option.getD_some, lookupKV_insert_self, if_pos ⟨rfl, rfl⟩]
    · rw [Option.getD_some, lookupKV_insert_ne _ _ _ _ hs,
        if_neg (fun hc => hs hc.2.symm)]
  · rw [lookupKV_insert_ne _ _ _ _ hm, if_neg (fun hc => hm hc.1.symm)]

theorem originIndexLookup_foldl_no_match (rows : List TypeOrigin)
    (acc : List (String × List (String × Nat))) (m s : String)
    (h : ∀ r ∈ rows, ¬(r.module_name = m ∧ r.struct_name = s)) :
    originIndexLookup (rows.foldl addOriginRow acc) m s =
      originIndexLookup acc m s := by
  induction rows generalizing acc with
  | nil => rfl
  | cons r rest ih =>
    rw [List.foldl_cons,
      ih (addOriginRow acc r) (fun x hx => h x (List.mem_cons_of_mem _ hx)),
      originIndexLookup_addOriginRow,
      if_neg (h r (List.mem_cons_self _ _))]

theorem originIndexLookup_foldl_of_mem (rows : List TypeOrigin)
    (acc : List (String × List (String × Nat))) (row : TypeOrigin)
    (hmem : row ∈ rows)
    (hnd : (rows.map (fun r => (r.module_name, r.struct_name))).Nodup) :
    originIndexLookup (rows.foldl addOriginRow acc)
      row.module_name row.struct_name = some row.package := by
  induction rows generalizing acc with
  | nil => cases hmem
  | cons r rest ih =>
    have hnd' : ((r.module_name, r.struct_name) ∉
        rest.map (fun x => (x.module_name, x.struct_name))) ∧
        (rest.map (fun x => (x.module_name, x.struct_name))).Nodup :=
      List.nodup_cons.mp hnd
    rw [List.foldl_cons]
    cases List.mem_cons.mp hmem with
    | inl heq =>
      subst heq
      have hnone : ∀ x ∈ rest,
          ¬(x.module_name = row.module_name ∧ x.struct_name = row.struct_name) := by
        intro x hx hc
        apply hnd'.1
        rw [← hc.1, ← hc.2]
        exact List.mem_map_of_mem _ hx
      rw [originIndexLookup_foldl_no_match rest (addOriginRow acc row)
          row.module_name row.struct_name hnone,
        originIndexLookup_addOriginRow, if_pos ⟨rfl, rfl⟩]
    | inr hrest => exact ih (addOriginRow acc r) hrest hnd'.2

theorem mem_of_originIndexLookup_foldl (rows : List TypeOrigin)
    (acc : List (String × List (String × Nat))) (m s : String) (a' : Nat)
    (h : originIndexLookup (rows.foldl addOriginRow acc) m s = some a') :
    (⟨m, s, a'⟩ : TypeOrigin) ∈ rows ∨ originIndexLookup acc m s = some a' := by
  induction rows generalizing acc with
  | nil => exact Or.inr h
  | cons r rest ih =>
    rw [List.foldl_cons] at h
    cases ih (addOriginRow acc r) h with
    | inl hmem => exact Or.inl (List.mem_cons_of_mem _ hmem)
    | inr hacc =>
      rw [originIndexLookup_addOriginRow] at hacc
      by_cases hcond : r.module_name = m ∧ r.struct_name = s
      · rw [if_pos hcond] at hacc
        cases hacc
        left
        have : (⟨m, s, r.package⟩ : TypeOrigin) = r := by
          cases r
          simp only at hcond ⊢
          rw [hcond.1, hcond.2]
        rw [this]
        exact List.mem_cons_self _ _
      · rw [if_neg hcond] at hacc
        exact Or.inr hacc

theorem originIndexLookup_nil (m s : String) :
    originIndexLookup [] m s = none := rfl

/-! ## C7: error classification of the materializer -/

/-- C7: `make_package` fails with `NotAPackage` on non-package objects; for
package objects it fails with `EmptyPackage` exactly when the serialized
module map is empty; it fails with `Deserialize` when it reaches a module
with malformed bytes (every module before it in name order being accepted);
and it fails with `NoTypeOrigin` (naming the module) when it reaches a
module one of whose declared structs has no entry in that module's slice of
the type-origin table. -/
theorem c7_materializer_errors (id v : Nat) (o : Object) :
    (o.data.try_as_package = none →
      make_package id v o = .error (.NotAPackage id)) ∧
    (∀ p, o.data = .package p →
      (p.serialized_module_map = [] ↔
        make_package id v o = .error (.EmptyPackage id))) ∧
    (∀ p pre n post, o.data = .package p →
      p.serialized_module_map = pre ++ (n, ModuleBytes.malformed) :: post →
      (pre.map Prod.fst).Nodup →
      (∀ e ∈ pre, moduleOkB (buildTypeOrigins p.type_origin_table) e = true) →
      make_package id v o = .error .Deserialize) ∧
    (∀ p pre n cm post s, o.data = .package p →
      p.serialized_module_map = pre ++ (n, ModuleBytes.valid cm) :: post →
      (pre.map Prod.fst).Nodup → n ∉ pre.map Prod.fst →
      (∀ e ∈ pre, moduleOkB (buildTypeOrigins p.type_origin_table) e = true) →
      s ∈ cm.structs →
      lookupKV ((lookupKV (buildTypeOrigins p.type_origin_table) n).getD []) s
        = none →
      ∃ s', make_package id v o = .error (.NoTypeOrigin id n s')) := by
  refine ⟨?_, ?_, ?_, ?_⟩
  · intro ho
    simp [make_package, ho]
  · intro p hp
    have hdata : o.data.try_as_package = some p := by
      rw [hp]; rfl
    constructor
    · intro hmm
      simp [make_package, hdata, hmm, processModules]
    · intro hmk
      by_contra hne
      cases hmmv : p.serialized_module_map with
      | nil => exact hne hmmv
      | cons e rest =>
        rw [show make_package id v o =
            (match processModules id p.serialized_module_map
                (buildTypeOrigins p.type_origin_table) none [] with
             | .error e => .error e
             | .ok (none, _) => .error (.EmptyPackage id)
             | .ok (some rid, modules) =>
               .ok { storage_id := id, runtime_id := rid, version := v,
                     modules := modules,
                     linkage := p.linkage_table.map (fun d => (d.1, d.2)) })
          from by simp [make_package, hdata]] at hmk
        cases hpm : processModules id p.serialized_module_map
            (buildTypeOrigins p.type_origin_table) none [] with
        | error e =>
          rw [hpm] at hmk
          cases hmk
          cases processModules_error_shape id _ _ _ _ _ hpm with
          | inl hd => cases hd
          | inr hd => obtain ⟨n, s, hd⟩ := hd; cases hd
        | ok pr =>
          obtain ⟨orid, mods⟩ := pr
          have hpm' := hpm
          rw [hmmv] at hpm'
          cases e with
          | mk name bytes =>
            cases bytes with
            | malformed => simp [processModules, deserialize_with_defaults] at hpm'
            | valid cm =>
              cases hr : Module.read cm
                  ((lookupKV (buildTypeOrigins p.type_origin_table) name).getD [])
                with
              | error s =>
                rw [show processModules id ((name, ModuleBytes.valid cm) :: rest)
                      (buildTypeOrigins p.type_origin_table) none [] =
                    .error (.NoTypeOrigin id name s)
                  from by
                    simp [processModules, deserialize_with_defaults, hr]] at hpm'
                cases hpm'
              | ok module =>
                have hpm'' : processModules id rest
                    (eraseKV (buildTypeOrigins p.type_origin_table) name)
                    (some cm.address) (insertKV [] name module)
                    = .ok (orid, mods) := by
                  rw [show processModules id
                        ((name, ModuleBytes.valid cm) :: rest)
                        (buildTypeOrigins p.type_origin_table) none [] =
                      processModules id rest
                        (eraseKV (buildTypeOrigins p.type_origin_table) name)
                        (some cm.address) (insertKV [] name module)
                    from by
                      simp [processModules, deserialize_with_defaults, hr]] at hpm'
                  exact hpm'
                have hsome := processModules_runtime_isSome id rest _
                  cm.address _ orid mods hpm''
                obtain ⟨r, hrid⟩ := Option.isSome_iff_exists.mp hsome
                rw [hpm, hrid] at hmk
                simp at hmk
  · intro p pre n post hp hsplit hnodup hok
    have hdata : o.data.try_as_package = some p := by
      rw [hp]; rfl
    have := processModules_deserialize id pre post n
      (buildTypeOrigins p.type_origin_table) none [] hnodup hok
    rw [← hsplit] at this
    simp [make_package, hdata, this]
  · intro p pre n cm post s hp hsplit hnodup hnot hok hs hmiss
    have hdata : o.data.try_as_package = some p := by
      rw [hp]; rfl
    obtain ⟨s', hpm⟩ := processModules_noorigin id pre post n cm
      (buildTypeOrigins p.type_origin_table) none [] s hnodup hnot hok hs hmiss
    rw [← hsplit] at hpm
    refine ⟨s', ?_⟩
    simp [make_package, hdata, hpm]

/-- C7 witness: the four error classes at concrete objects — a non-package
object, an empty package, a package with malformed module bytes, and a
package whose struct has no origin entry. -/
theorem c7_witness :
    make_package 5 1 npObj = .error (.NotAPackage 5) ∧
    make_package 7 1 emptyObj = .error (.EmptyPackage 7) ∧
    make_package 11 1 malformedObj = .error .Deserialize ∧
    (∃ s', make_package 12 1 noOriginObj = .error (.NoTypeOrigin 12 "m" s')) :=
  ⟨(c7_materializer_errors 5 1 npObj).1 rfl,
   ((c7_materializer_errors 7 1 emptyObj).2.1 emptyMp rfl).mp rfl,
   (c7_materializer_errors 11 1 malformedObj).2.2.1 malformedMp [] "m" [] rfl
     rfl List.nodup_nil (fun e he => absurd he (List.not_mem_nil e)),
   (c7_materializer_errors 12 1 noOriginObj).2.2.2 noOriginMp [] "m" ⟨4, ["S"]⟩
     [] "S" rfl rfl List.nodup_nil (List.not_mem_nil "m")
     (fun e he => absurd he (List.not_mem_nil e)) (by decide) rfl⟩

/-! ## C8: runtime id is the last module's self address, unchecked -/

/-- C8: for every package object whose modules all deserialize and whose
structs all have origins — with no requirement that the modules' self
addresses agree — `make_package` succeeds, and the resulting package's
`runtime_id` is the self address of the last module processed (the
serialized module map's entry list being its ascending name order). -/
theorem c8_runtime_from_last_module (id v : Nat) (o : Object) (p : MovePackage)
    (hdata : o.data = .package p)
    (hne : p.serialized_module_map ≠ [])
    (hnodup : (p.serialized_module_map.map Prod.fst).Nodup)
    (hok : ∀ e ∈ p.serialized_module_map,
      moduleOkB (buildTypeOrigins p.type_origin_table) e = true) :
    exceptIsOk (make_package id v o) = true ∧
    runtimeIdOf (make_package id v o) = lastAddress p.serialized_module_map := by
  have hdata' : o.data.try_as_package = some p := by
    rw [hdata]; rfl
  have hpm := processModules_ok id p.serialized_module_map
    (buildTypeOrigins p.type_origin_table) none [] hnodup
    (fun e _ => rfl) hok
  rw [lastRuntime_of_ne_nil _ _ hne] at hpm
  obtain ⟨la, hla⟩ : ∃ la, lastAddress p.serialized_module_map = some la := by
    cases hg : p.serialized_module_map.getLast? with
    | none => exact absurd (List.getLast?_eq_none_iff.mp hg) hne
    | some e => exact ⟨(bytesModule e.2).address, by simp [lastAddress, hg]⟩
  rw [hla] at hpm
  constructor
  · simp [make_package, hdata', hpm, exceptIsOk]
  · simp [make_package, hdata', hpm, runtimeIdOf, hla]

/-- C8 witness: the package object `divergentObj`, whose two modules declare
the divergent self addresses 10 and 20, still materializes, and its runtime
id is 20 — the address of the last module in name order. -/
theorem c8_witness :
    exceptIsOk (make_package 8 1 divergentObj) = true ∧
    runtimeIdOf (make_package 8 1 divergentObj) = some 20 :=
  ⟨(c8_runtime_from_last_module 8 1 divergentObj divergentMp rfl (by decide)
      (by decide) (by decide)).1,
   ((c8_runtime_from_last_module 8 1 divergentObj divergentMp rfl (by decide)
      (by decide) (by decide)).2).trans (by decide)⟩

/-! ## C4: round-trip of the materializer -/

theorem lookupKV_map_mkModule (mm : List (String × ModuleBytes))
    (tos : List (String × List (String × Nat))) (m : String) :
    lookupKV (mm.map (fun e => (e.1, mkModule tos e))) m =
      (lookupKV mm m).map (fun b => mkModule tos (m, b)) := by
  induction mm with
  | nil => rfl
  | cons e rest ih =>
    cases e with
    | mk k b =>
      by_cases hk : k = m
      · subst hk; simp [lookupKV]
      · simp [lookupKV, hk, ih]

/-- C4 counterexample: the object `ghostObj` satisfies the claim's premises
(its one module deserializes and every struct it declares has an origin),
and its type-origin table encodes the entry `(ghost, S) ↦ 7` — yet the
materialized package drops that entry, because `ghost` names no module in
the serialized module map: the claimed round-trip of *every* table entry
fails. -/
theorem c4_counterexample :
    (make_package 1 1 ghostObj).map
        (fun pkg => pkgOriginLookup pkg "ghost" "S") = .ok none ∧
    ghostMp.type_origin_table = [⟨"ghost", "S", 7⟩] :=
  ⟨rfl, rfl⟩

/-- C4 (amended): for a package object whose module map is non-empty with
distinct names, whose modules all deserialize to a common self address `a`
and have origins for all their structs, and whose type-origin table has at
most one row per `(module, struct)` pair, materialization succeeds and reads
back exactly what the object encoded — the runtime id `a`, the module
names, and every type-origin row *whose module is among the package's
modules* (rows naming absent modules are dropped); and no origin entry is
invented: every entry read back is a row of the object's table. -/
theorem c4_roundtrip_amended (id v a : Nat) (o : Object) (p : MovePackage)
    (hdata : o.data = .package p)
    (hne : p.serialized_module_map ≠ [])
    (hnodup : (p.serialized_module_map.map Prod.fst).Nodup)
    (htab : (p.type_origin_table.map
      (fun r => (r.module_name, r.struct_name))).Nodup)
    (hok : ∀ e ∈ p.serialized_module_map,
      moduleOkB (buildTypeOrigins p.type_origin_table) e = true)
    (haddr : ∀ e ∈ p.serialized_module_map,
      bytesValid e.2 = true ∧ (bytesModule e.2).address = a) :
    ∃ pkg, make_package id v o = .ok pkg ∧
      pkg.runtime_id = a ∧
      pkg.modules.map Prod.fst = p.serialized_module_map.map Prod.fst ∧
      (∀ row ∈ p.type_origin_table,
        row.module_name ∈ p.serialized_module_map.map Prod.fst →
        pkgOriginLookup pkg row.module_name row.struct_name
          = some row.package) ∧
      (∀ m s a', pkgOriginLookup pkg m s = some a' →
        (⟨m, s, a'⟩ : TypeOrigin) ∈ p.type_origin_table) := by
  have hdata' : o.data.try_as_package = some p := by
    rw [hdata]; rfl
  have hpm := processModules_ok id p.serialized_module_map
    (buildTypeOrigins p.type_origin_table) none [] hnodup (fun e _ => rfl) hok
  have hlast : lastRuntime p.serialized_module_map none = some a := by
    unfold lastRuntime
    cases hg : p.serialized_module_map.getLast? with
    | none => exact absurd (List.getLast?_eq_none_iff.mp hg) hne
    | some e =>
      have hmem := List.mem_of_getLast?_eq_some hg
      show some (bytesModule e.2).address = some a
      rw [(haddr e hmem).2]
  rw [hlast] at hpm
  refine ⟨⟨id, a, v,
    p.serialized_module_map.map
      (fun e => (e.1, mkModule (buildTypeOrigins p.type_origin_table) e)),
    p.linkage_table.map (fun d => (d.1, d.2))⟩, ?_, rfl, ?_, ?_, ?_⟩
  · simp [make_package, hdata', hpm]
  · rw [List.map_map]
    exact List.map_congr_left (fun e _ => rfl)
  · intro row hrow hmodmem
    have hpres : (lookupKV p.serialized_module_map row.module_name).isSome
        = true := (lookupKV_isSome_iff_mem _ _).mpr hmodmem
    obtain ⟨b, hb⟩ := Option.isSome_iff_exists.mp hpres
    unfold pkgOriginLookup
    rw [show (⟨id, a, v,
        p.serialized_module_map.map
          (fun e => (e.1, mkModule (buildTypeOrigins p.type_origin_table) e)),
        p.linkage_table.map (fun d => (d.1, d.2))⟩ : Package).modules =
      p.serialized_module_map.map
        (fun e => (e.1, mkModule (buildTypeOrigins p.type_origin_table) e))
      from rfl]
    rw [lookupKV_map_mkModule, hb]
    show originIndexLookup (buildTypeOrigins p.type_origin_table)
      row.module_name row.struct_name = some row.package
    rw [show buildTypeOrigins p.type_origin_table =
      p.type_origin_table.foldl addOriginRow [] from rfl]
    exact originIndexLookup_foldl_of_mem p.type_origin_table [] row hrow htab
  · intro m s a' hlook
    unfold pkgOriginLookup at hlook
    rw [show (⟨id, a, v,
        p.serialized_module_map.map
          (fun e => (e.1, mkModule (buildTypeOrigins p.type_origin_table) e)),
        p.linkage_table.map (fun d => (d.1, d.2))⟩ : Package).modules =
      p.serialized_module_map.map
        (fun e => (e.1, mkModule (buildTypeOrigins p.type_origin_table) e))
      from rfl, lookupKV_map_mkModule] at hlook
    cases hb : lookupKV p.serialized_module_map m with
    | none => rw [hb] at hlook; cases hlook
    | some b =>
      rw [hb] at hlook
      have hidx : originIndexLookup (buildTypeOrigins p.type_origin_table) m s
          = some a' := hlook
      rw [show buildTypeOrigins p.type_origin_table =
        p.type_origin_table.foldl addOriginRow [] from rfl] at hidx
      cases mem_of_originIndexLookup_foldl p.type_origin_table [] m s a' hidx
        with
      | inl hmem => exact hmem
      | inr habs => cases habs.symm.trans (originIndexLookup_nil m s).symm

/-- C4 witness: the single-module package object `pkgObj` round-trips: the
origin entry `(m, S) ↦ 7` is read back and the module names are `["m"]`. -/
theorem c4_witness :
    (make_package 6 1 pkgObj).map
        (fun pkg => pkgOriginLookup pkg "m" "S") = .ok (some 7) ∧
    (make_package 6 1 pkgObj).map
        (fun pkg => pkg.modules.map Prod.fst) = .ok ["m"] := by
  obtain ⟨pkg, hmk, hrid, hmods, hkeep, hinv⟩ :=
    c4_roundtrip_amended 6 1 4 pkgObj pkgObjMp rfl (by decide) (by decide)
      (by decide) (by decide) (by decide)
  constructor
  · rw [hmk]
    exact congrArg Except.ok (hkeep ⟨"m", "S", 7⟩ (by decide) (by decide))
  · rw [hmk]
    exact congrArg Except.ok (hmods.trans (by decide))

end Sui
